import Mathlib

/-!
Shallow embedding of the Serverpluschat WebSocket server (`server.js`):
the connection registry (`clients` map and `clientCounter`), the message
router (`ws.on('message')`), the broadcaster (`broadcastMessage`), the
connection lifecycle handlers and the heartbeat-based liveness monitor.

Modelling conventions:
* `ws` handles are opaque and modelled as natural numbers.
* Wall-clock timestamps (the ISO `timestamp` string attached to every
  outbound message) are outside the embedding; `connectedAt` is kept as an
  abstract number passed in at connect time.
* A JSON field that may be absent is an `Option`; JS truthiness of a string
  is `≠ ""` and of a number is `≠ 0`.
* `ws.terminate()` inside the heartbeat runs the socket's close handler as
  part of the eviction (deletion plus `user_left` broadcast).
-/

namespace Serverpluschat

/-- The ASCII portion of the ECMAScript WhiteSpace/LineTerminator character
sets that `String.prototype.trim` strips. -/
def isWsChar (c : Char) : Bool :=
  c == ' ' || c == '\t' || c == '\n' || c == '\r' || c == '\x0b' || c == '\x0c'

/-- JS `String.prototype.trim`: strip leading and trailing whitespace. -/
def jsTrim (s : String) : String :=
  ⟨((s.data.dropWhile isWsChar).reverse.dropWhile isWsChar).reverse⟩

/-- Parsed inbound message: the fields of the JSON payload that the router
inspects (`server.js` lines 62-164).  A field the payload lacks is `none`. -/
structure InMsg where
  type : Option String := none
  username : Option String := none
  text : Option String := none
  targetClientId : Option Nat := none
  deriving DecidableEq, Repr

/-- One element of the `user_list` reply (`server.js` lines 135-140). -/
structure UserEntry where
  id : Nat
  username : String
  connectedAt : Nat
  ip : String
  deriving DecidableEq, Repr

/-- Outbound message bodies, tagged as in the JSON `type` field.  JS keywords
`from`/`to` are rendered `from_`/`to_`. -/
inductive Payload where
  | welcome (message : String) (clientId : Nat)
  | user_joined (message : String) (clientId : Nat)
  | user_left (message : String) (clientId : Nat)
  | username_changed (message : String) (username : String)
  | user_renamed (message : String) (oldUsername newUsername : String) (clientId : Nat)
  | chat (username : String) (clientId : Nat) (text : String)
  | private_message (from_ : String) (fromClientId : Nat) (text : String)
  | private_message_sent (to_ : String) (text : String)
  | user_list (users : List UserEntry) (totalUsers : Nat)
  | pong
  | echo (message : InMsg)
  | error (message : String)
  deriving DecidableEq, Repr

/-- A serialized outbound message: body plus whether the JSON spread in
`broadcastMessage` added `acknowledged: true` (`server.js` lines 213-216).
`acknowledged = false` models the field being absent. -/
structure OutMsg where
  payload : Payload
  acknowledged : Bool
  deriving DecidableEq, Repr

/-- Observable transport effects: `ws.send` of a message, the liveness probe
`ws.ping()`, and `ws.terminate()`. -/
inductive Evt where
  | send (handle : Nat) (msg : OutMsg)
  | probe (handle : Nat)
  | terminate (handle : Nat)
  deriving DecidableEq, Repr

/-- The per-client record stored in the `clients` map (`server.js` 25-32).
`isAlive` here is the record field set once at creation; the heartbeat reads
the separate `ws.isAlive` flag, modelled as `Entry.wsAlive`. -/
structure ClientInfo where
  id : Nat
  ip : String
  connectedAt : Nat
  username : String
  isAlive : Bool
  deriving DecidableEq, Repr

/-- One entry of the `clients` map: the socket handle, the transport flags
living on the `ws` object (`readyState === OPEN` and `ws.isAlive`), and the
client record. -/
structure Entry where
  handle : Nat
  readyStateOpen : Bool
  wsAlive : Bool
  info : ClientInfo
  deriving DecidableEq, Repr

/-- Global server state: the `clients` map (insertion-ordered, like a JS
`Map`) and the id counter (`server.js` 15-16). -/
structure ServerState where
  clients : List Entry
  clientCounter : Nat
  deriving DecidableEq, Repr

/-- State at process start: empty map, counter 0. -/
def initialState : ServerState := ⟨[], 0⟩

/-- Lookup of the map entry that belongs to handle `h` (`clients.get(ws)`,
with the JS `Map` iterated in insertion order). -/
def lookupEntry (st : ServerState) (h : Nat) : Option Entry :=
  st.clients.find? (fun e => e.handle == h)

/-- JS `Map.set`: replace in place when the key is present, else append. -/
def mapSet (clients : List Entry) (e : Entry) : List Entry :=
  if clients.any (fun x => x.handle == e.handle) then
    clients.map (fun x => if x.handle == e.handle then e else x)
  else clients ++ [e]

/-- JS `Map.delete`. -/
def mapDelete (clients : List Entry) (h : Nat) : List Entry :=
  clients.filter (fun x => x.handle != h)

/-- Mutation of the entry owned by handle `h` (JS object mutation through the
reference stored in the map). -/
def updateEntry (clients : List Entry) (h : Nat) (f : Entry → Entry) : List Entry :=
  clients.map (fun x => if x.handle == h then f x else x)

/-- `broadcastMessage(message, senderWs)` (`server.js` 204-220): send the
message to every open connection; the sender, when one is given, instead
receives the message with `acknowledged: true` spread in. -/
def broadcastMessage (clients : List Entry) (msg : Payload) (senderWs : Option Nat) :
    List Evt :=
  clients.filterMap (fun e =>
    if e.readyStateOpen then
      if senderWs == some e.handle then some (Evt.send e.handle ⟨msg, true⟩)
      else some (Evt.send e.handle ⟨msg, false⟩)
    else none)

/-- `wss.on('connection')` (`server.js` 19-52): allocate the next id, insert
the record, send the welcome to the new socket, broadcast `user_joined` with
the new socket as the acknowledged sender.  The per-socket heartbeat flag is
initialised to `true` (line 197). -/
def handleConnection (st : ServerState) (h : Nat) (ip : String) (now : Nat) :
    ServerState × List Evt :=
  let clientId := st.clientCounter + 1
  let info : ClientInfo :=
    { id := clientId, ip := ip, connectedAt := now
      username := s!"User_{clientId}", isAlive := true }
  let clients1 := mapSet st.clients ⟨h, true, true, info⟩
  (⟨clients1, clientId⟩,
    Evt.send h ⟨.welcome s!"Welcome to the WebSocket Server! Your ID: {clientId}" clientId,
        false⟩
      :: broadcastMessage clients1
          (.user_joined s!"{info.username} joined the chat" clientId) (some h))

/-- `ws.on('close')` (`server.js` 176-189): delete the entry, then broadcast
`user_left` (no sender) with the username and id captured at connect time.
The close event fires once per registered socket; an unknown handle is a
no-op in the model. -/
def handleClose (st : ServerState) (h : Nat) : ServerState × List Evt :=
  match lookupEntry st h with
  | none => (st, [])
  | some e =>
    let clients1 := mapDelete st.clients h
    (⟨clients1, st.clientCounter⟩,
      broadcastMessage clients1
        (.user_left s!"{e.info.username} left the chat" e.info.id) none)

/-- `ws.on('pong')` (`server.js` 198-200): a liveness acknowledgment sets
`ws.isAlive` back to true. -/
def handlePong (st : ServerState) (h : Nat) : ServerState :=
  ⟨updateEntry st.clients h (fun e => { e with wsAlive := true }), st.clientCounter⟩

/-- `ws.on('message')` (`server.js` 55-173).  `data = none` models a payload
that `JSON.parse` rejects; `some m` is the parsed object.  The closure
variables `clientId`/`clientInfo` are recovered by looking the sender up in
the registry (message events only fire while the socket is registered; the
unreachable unregistered case is a no-op). -/
def handleMessage (st : ServerState) (h : Nat) (data : Option InMsg) :
    ServerState × List Evt :=
  match data with
  | none =>
    (st, [Evt.send h ⟨.error "Invalid message format. Expected JSON.", false⟩])
  | some m =>
    match lookupEntry st h with
    | none => (st, [])
    | some e =>
      match m.type with
      | some "set_username" =>
        match m.username with
        | some u =>
          if u ≠ "" ∧ 0 < (jsTrim u).length then
            let oldUsername := e.info.username
            let newName := jsTrim u
            let clients1 := updateEntry st.clients h
              (fun x => { x with info := { x.info with username := newName } })
            (⟨clients1, st.clientCounter⟩,
              Evt.send h ⟨.username_changed
                  s!"Username changed from \"{oldUsername}\" to \"{newName}\"" newName,
                  false⟩
                :: broadcastMessage clients1
                    (.user_renamed s!"{oldUsername} changed username to {newName}"
                      oldUsername newName e.info.id) none)
          else (st, [])
        | none => (st, [])
      | some "chat" =>
        match m.text with
        | some t =>
          if t ≠ "" ∧ 0 < (jsTrim t).length then
            (st, broadcastMessage st.clients (.chat e.info.username e.info.id t) none)
          else (st, [])
        | none => (st, [])
      | some "private_message" =>
        match m.targetClientId, m.text with
        | some k, some t =>
          if k ≠ 0 ∧ t ≠ "" then
            match st.clients.find? (fun c => c.info.id == k) with
            | some target =>
              (st,
                [Evt.send target.handle
                    ⟨.private_message e.info.username e.info.id t, false⟩,
                  Evt.send h ⟨.private_message_sent target.info.username t, false⟩])
            | none =>
              (st, [Evt.send h ⟨.error s!"Target client {k} not found", false⟩])
          else (st, [])
        | _, _ => (st, [])
      | some "get_users" =>
        (st, [Evt.send h ⟨.user_list
            (st.clients.map (fun c =>
              ⟨c.info.id, c.info.username, c.info.connectedAt, c.info.ip⟩))
            st.clients.length, false⟩])
      | some "ping" => (st, [Evt.send h ⟨.pong, false⟩])
      | _ => (st, [Evt.send h ⟨.echo m, false⟩])

/-- One entry of the heartbeat `forEach` (`server.js` 224-232): a socket whose
`isAlive` flag is still false is terminated, which runs its close handler
(deletion plus `user_left` broadcast) as part of the eviction; otherwise the
flag is cleared and a probe (`ws.ping()`) is sent. -/
def tickStep (acc : ServerState × List Evt) (h : Nat) : ServerState × List Evt :=
  match lookupEntry acc.1 h with
  | none => acc
  | some e =>
    if e.wsAlive then
      (⟨updateEntry acc.1.clients h (fun x => { x with wsAlive := false }),
          acc.1.clientCounter⟩,
        acc.2 ++ [Evt.probe h])
    else
      let r := handleClose acc.1 h
      (r.1, acc.2 ++ Evt.terminate h :: r.2)

/-- One firing of `heartbeatInterval` (`server.js` 223-233): the `forEach`
over the clients map, in insertion order. -/
def heartbeatTick (st : ServerState) : ServerState × List Evt :=
  (st.clients.map (fun e => e.handle)).foldl tickStep (st, [])

/-- A connect or disconnect event, for whole-run registry statements. -/
inductive CDEvent where
  | connect (h : Nat) (ip : String) (now : Nat)
  | disconnect (h : Nat)
  deriving DecidableEq, Repr

/-- State transition of one lifecycle event. -/
def cdStep (st : ServerState) (ev : CDEvent) : ServerState :=
  match ev with
  | .connect h ip now => (handleConnection st h ip now).1
  | .disconnect h => (handleClose st h).1

/-- Run a sequence of lifecycle events. -/
def cdRun (st : ServerState) (evs : List CDEvent) : ServerState :=
  evs.foldl cdStep st

/-- The ids handed out along a run: the id assigned at a connect is the
counter value just after it (`const clientId = ++clientCounter`). -/
def assignedIds : ServerState → List CDEvent → List Nat
  | _, [] => []
  | st, ev :: evs =>
    match ev with
    | .connect h ip now =>
      (handleConnection st h ip now).1.clientCounter
        :: assignedIds (handleConnection st h ip now).1 evs
    | .disconnect h => assignedIds (handleClose st h).1 evs

/-- The handles of the connect events of a run, in order. -/
def connectHandles : List CDEvent → List Nat
  | [] => []
  | .connect h _ _ :: evs => h :: connectHandles evs
  | .disconnect _ :: evs => connectHandles evs

/-- The `ws.send` effects of an event list, probes and terminations dropped. -/
def sendEvents (evs : List Evt) : List Evt :=
  evs.filter (fun ev => match ev with | .send _ _ => true | _ => false)

/-- The registry invariants maintained across the connection lifecycle:
every registered entry is an open connection whose id was allocated by the
counter, and neither ids nor handles repeat in the mapping. -/
def RegInv (st : ServerState) : Prop :=
  (∀ e ∈ st.clients, e.readyStateOpen = true ∧ e.info.id ≤ st.clientCounter)
  ∧ (st.clients.map (fun e => e.info.id)).Nodup
  ∧ (st.clients.map (fun e => e.handle)).Nodup

/-- Example run: two connects, a disconnect, another connect. -/
def exRun : List CDEvent :=
  [CDEvent.connect 1 "a" 0, CDEvent.connect 2 "b" 1,
    CDEvent.disconnect 1, CDEvent.connect 3 "c" 2]

/-- Example state: three clients connected in sequence (handles 1, 2, 3). -/
def exSt3 : ServerState :=
  (handleConnection (handleConnection (handleConnection
    initialState 1 "ipA" 0).1 2 "ipB" 1).1 3 "ipC" 2).1

/-- The registry entry of the first example client. -/
def entA : Entry := ⟨1, true, true, ⟨1, "ipA", 0, "User_1", true⟩⟩

/-- The registry entry of the second example client. -/
def entB : Entry := ⟨2, true, true, ⟨2, "ipB", 1, "User_2", true⟩⟩

/-- The registry entry of the third example client. -/
def entC : Entry := ⟨3, true, true, ⟨3, "ipC", 2, "User_3", true⟩⟩

/-! ## Helper lemmas -/

/-- `find?` by a key in a keyed list with duplicate-free keys returns the
member itself. -/
theorem find_key_of_nodup (key : Entry → Nat) :
    ∀ (l : List Entry), (l.map key).Nodup → ∀ x ∈ l,
      l.find? (fun e => key e == key x) = some x := by
  intro l
  induction l with
  | nil => intro _ x hx; simp at hx
  | cons y ys ih =>
    intro hnd x hx
    rcases List.mem_cons.1 hx with rfl | hx2
    · simp [List.find?]
    · have hne : key y ≠ key x := by
        intro hkk
        have : key x ∈ ys.map key := List.mem_map_of_mem key hx2
        rw [← hkk] at this
        exact (List.nodup_cons.1 (by simpa using hnd)).1 this
      rw [List.find?_cons_of_neg _ (by simp [hne])]
      exact ih (List.nodup_cons.1 (by simpa using hnd)).2 x hx2

/-- Registry lookup of a member, when handles are duplicate-free. -/
theorem lookupEntry_of_nodup (st : ServerState)
    (hnd : (st.clients.map (fun e => e.handle)).Nodup) (x : Entry) (hx : x ∈ st.clients) :
    lookupEntry st x.handle = some x :=
  find_key_of_nodup (fun e => e.handle) st.clients hnd x hx

/-- Broadcast with no sender over all-open clients: one plain copy each. -/
theorem broadcast_none_of_open (clients : List Entry) (msg : Payload)
    (hopen : ∀ x ∈ clients, x.readyStateOpen = true) :
    broadcastMessage clients msg none
      = clients.map (fun e => Evt.send e.handle ⟨msg, false⟩) := by
  induction clients with
  | nil => rfl
  | cons y ys ih =>
    have hy := hopen y (List.mem_cons_self y ys)
    simp [broadcastMessage, List.filterMap_cons, hy] at ih ⊢
    exact ih (fun x hx => hopen x (List.mem_cons_of_mem y hx))

/-- A keyed map with `x` in the middle keeps other entries if their handles
differ from `x.handle`. -/
theorem map_if_handle_eq_self (l : List Entry) (h : Nat) (f : Entry → Entry)
    (hn : ∀ x ∈ l, x.handle ≠ h) :
    l.map (fun x => if x.handle == h then f x else x) = l := by
  induction l with
  | nil => rfl
  | cons y ys ih =>
    simp only [List.map_cons, List.cons.injEq]
    exact ⟨by simp [hn y (List.mem_cons_self y ys)],
      ih (fun x hx => hn x (List.mem_cons_of_mem y hx))⟩

/-- Mutating the entry of `e.handle` in a handle-keyed list touches exactly
the middle entry. -/
theorem updateEntry_middle (c1 c2 : List Entry) (e : Entry) (f : Entry → Entry)
    (h1 : ∀ x ∈ c1, x.handle ≠ e.handle) (h2 : ∀ x ∈ c2, x.handle ≠ e.handle) :
    updateEntry (c1 ++ e :: c2) e.handle f = c1 ++ f e :: c2 := by
  simp only [updateEntry, List.map_append, List.map_cons, beq_self_eq_true, if_true,
    map_if_handle_eq_self c1 e.handle f h1, map_if_handle_eq_self c2 e.handle f h2]

/-- Filtering out a missing handle keeps the list. -/
theorem filter_ne_handle_eq_self (l : List Entry) (h : Nat)
    (hn : ∀ x ∈ l, x.handle ≠ h) :
    l.filter (fun x => x.handle != h) = l :=
  List.filter_eq_self.mpr (fun x hx => by simp [hn x hx])

/-- Deleting `e.handle` from a handle-keyed list removes exactly the middle
entry. -/
theorem mapDelete_middle (c1 c2 : List Entry) (e : Entry)
    (h1 : ∀ x ∈ c1, x.handle ≠ e.handle) (h2 : ∀ x ∈ c2, x.handle ≠ e.handle) :
    mapDelete (c1 ++ e :: c2) e.handle = c1 ++ c2 := by
  simp only [mapDelete, List.filter_append, List.filter_cons, bne_self_eq_false,
    Bool.false_eq_true, if_false, filter_ne_handle_eq_self c1 e.handle h1,
    filter_ne_handle_eq_self c2 e.handle h2]

/-- Splitting a duplicate-free handle list around a middle entry. -/
theorem nodup_handles_split (c1 c2 : List Entry) (e : Entry)
    (hnd : ((c1 ++ e :: c2).map (fun x => x.handle)).Nodup) :
    (∀ x ∈ c1, x.handle ≠ e.handle) ∧ (∀ x ∈ c2, x.handle ≠ e.handle) := by
  rw [List.map_append] at hnd
  have h := List.nodup_append.1 hnd
  refine ⟨fun x hx heq => ?_, fun x hx heq => ?_⟩
  · exact h.2.2 (List.mem_map_of_mem _ hx) (by simp [heq])
  · have h2 : e.handle ∉ c2.map (fun x => x.handle) := by
      have := h.2.1
      simp only [List.map_cons, List.nodup_cons] at this
      exact this.1
    exact h2 (by rw [← heq]; exact List.mem_map_of_mem _ hx)

/-- `toString` on a string is the identity. -/
theorem str_toString_eq (s : String) : toString s = s := rfl

/-- Everything a broadcast emits is a send of the broadcast message itself. -/
theorem mem_broadcast_payload (clients : List Entry) (msg : Payload) (s : Option Nat)
    (ev : Evt) (hev : ev ∈ broadcastMessage clients msg s) :
    ∃ hh bb, ev = Evt.send hh ⟨msg, bb⟩ := by
  rcases List.mem_filterMap.1 hev with ⟨x, hx, hfx⟩
  by_cases ho : x.readyStateOpen
  · by_cases hs : (s == some x.handle) = true
    · simp [ho, hs] at hfx
      exact ⟨x.handle, true, hfx.symm⟩
    · simp [ho, hs] at hfx
      exact ⟨x.handle, false, hfx.symm⟩
  · simp [ho] at hfx

/-- The target-not-found error text never collides with the parse-error text. -/
theorem tgt_error_ne (k : Nat) :
    s!"Target client {k} not found" ≠ "Invalid message format. Expected JSON." := by
  intro heq
  have h2 := congrArg (fun s => s.data.head?) heq
  simp only [String.data_append] at h2
  have h3 : (toString "Target client ").data = 'T' :: "arget client ".data := rfl
  rw [h3] at h2
  simp at h2

/-- `Map.set` with a fresh key appends. -/
theorem mapSet_fresh (clients : List Entry) (e : Entry)
    (hfresh : ∀ x ∈ clients, x.handle ≠ e.handle) :
    mapSet clients e = clients ++ [e] := by
  have hno : clients.any (fun x => x.handle == e.handle) = false := by
    rw [List.any_eq_false]
    intro x hx
    simp [hfresh x hx]
  simp [mapSet, hno]

/-- Broadcast with a sender that is not in the list: plain copies only. -/
theorem broadcast_sender_not_mem (clients : List Entry) (msg : Payload) (h : Nat)
    (hopen : ∀ x ∈ clients, x.readyStateOpen = true)
    (hne : ∀ x ∈ clients, x.handle ≠ h) :
    broadcastMessage clients msg (some h)
      = clients.map (fun e => Evt.send e.handle ⟨msg, false⟩) := by
  induction clients with
  | nil => rfl
  | cons y ys ih =>
    have hy := hopen y (List.mem_cons_self y ys)
    have hyne : ¬(h = y.handle) := fun hh => hne y (List.mem_cons_self y ys) hh.symm
    simp [broadcastMessage, List.filterMap_cons, hy, hyne] at ih ⊢
    exact ih (fun x hx => hopen x (List.mem_cons_of_mem y hx))
      (fun x hx => hne x (List.mem_cons_of_mem y hx))

/-- Broadcast distributes over list append. -/
theorem broadcast_append (a b : List Entry) (msg : Payload) (s : Option Nat) :
    broadcastMessage (a ++ b) msg s = broadcastMessage a msg s ++ broadcastMessage b msg s := by
  simp [broadcastMessage]

/-- Broadcasting to a single open connection that is itself the sender yields
the acknowledged copy. -/
theorem broadcast_single_self (e : Entry) (msg : Payload) (ho : e.readyStateOpen = true) :
    broadcastMessage [e] msg (some e.handle) = [Evt.send e.handle ⟨msg, true⟩] := by
  simp [broadcastMessage, ho]

/-! ## Claims -/

/-- C1 (counterexample): with clients A(1), B(2), C(3) connected, a chat
`{type:"chat", text:"hi"}` from A is relayed to all three as plain copies
— A's own copy does not carry `acknowledged: true`, because the chat case
calls `broadcastMessage` without the sender argument (`server.js` 88-94). -/
theorem chat_sender_not_acknowledged :
    (handleMessage exSt3 1 (some { type := some "chat", text := some "hi" })).2
      = [Evt.send 1 ⟨.chat "User_1" 1 "hi", false⟩,
         Evt.send 2 ⟨.chat "User_1" 1 "hi", false⟩,
         Evt.send 3 ⟨.chat "User_1" 1 "hi", false⟩]
    ∧ Evt.send 1 ⟨.chat "User_1" 1 "hi", true⟩
        ∉ (handleMessage exSt3 1 (some { type := some "chat", text := some "hi" })).2 := by
  constructor
  · rfl
  · decide

/-- C1 (amended): a handled chat with text non-empty after trimming, sent from
a registered connection with all connections open, is relayed exactly once to
every connection — the sender included — as a plain copy carrying the sender's
id, display name and the text; no `acknowledged` marker is added anywhere and
no other outbound messages are produced; the registry is not mutated. -/
theorem chat_broadcast_plain_to_all (c1 c2 : List Entry) (e : Entry) (n : Nat) (t : String)
    (hnd : ((c1 ++ e :: c2).map (fun x => x.handle)).Nodup)
    (hopen : ∀ x ∈ c1 ++ e :: c2, x.readyStateOpen = true)
    (ht : t ≠ "") (ht2 : 0 < (jsTrim t).length) :
    handleMessage ⟨c1 ++ e :: c2, n⟩ e.handle
        (some { type := some "chat", text := some t })
      = (⟨c1 ++ e :: c2, n⟩,
         (c1 ++ e :: c2).map (fun x =>
           Evt.send x.handle ⟨.chat e.info.username e.info.id t, false⟩)) := by
  have hl : lookupEntry ⟨c1 ++ e :: c2, n⟩ e.handle = some e :=
    lookupEntry_of_nodup _ hnd e (by simp)
  simp [handleMessage, hl, ht, ht2, broadcast_none_of_open _ _ hopen]

/-- C1 (witness): the amended chat relay at a concrete three-client state. -/
theorem chat_broadcast_plain_to_all_witness :
    ((([entA] ++ entB :: [entC]).map (fun x => x.handle)).Nodup
      ∧ (∀ x ∈ [entA] ++ entB :: [entC], x.readyStateOpen = true)
      ∧ "hi" ≠ "" ∧ 0 < (jsTrim "hi").length)
    ∧ handleMessage ⟨[entA] ++ entB :: [entC], 3⟩ entB.handle
        (some { type := some "chat", text := some "hi" })
        = (⟨[entA] ++ entB :: [entC], 3⟩,
           ([entA] ++ entB :: [entC]).map (fun x =>
             Evt.send x.handle ⟨.chat entB.info.username entB.info.id "hi", false⟩)) :=
  ⟨⟨by decide, by decide, by decide, by decide⟩,
    chat_broadcast_plain_to_all [entA] [entC] entB 3 "hi"
      (by decide) (by decide) (by decide) (by decide)⟩

/-- C4: a handled `set_username` whose username is present and non-empty after
trimming updates the sender's display name (and nothing else), sends a
`username_changed` confirmation to the sender first, and broadcasts a
`user_renamed` notice carrying the old and new usernames to every connection,
the sender included; with the username empty after trimming, or absent, the
message is silently ignored: no reply and no mutation. -/
theorem set_username_routing (c1 c2 : List Entry) (e : Entry) (n : Nat)
    (hnd : ((c1 ++ e :: c2).map (fun x => x.handle)).Nodup)
    (hopen : ∀ x ∈ c1 ++ e :: c2, x.readyStateOpen = true) :
    (∀ u : String, u ≠ "" → 0 < (jsTrim u).length →
      handleMessage ⟨c1 ++ e :: c2, n⟩ e.handle
          (some { type := some "set_username", username := some u })
        = (⟨c1 ++ { e with info := { e.info with username := jsTrim u } } :: c2, n⟩,
            Evt.send e.handle ⟨.username_changed
                s!"Username changed from \"{e.info.username}\" to \"{jsTrim u}\"" (jsTrim u),
                false⟩
              :: (c1 ++ e :: c2).map (fun x => Evt.send x.handle
                  ⟨.user_renamed s!"{e.info.username} changed username to {jsTrim u}"
                      e.info.username (jsTrim u) e.info.id, false⟩)))
    ∧ (∀ u : String, jsTrim u = "" →
        handleMessage ⟨c1 ++ e :: c2, n⟩ e.handle
            (some { type := some "set_username", username := some u })
          = (⟨c1 ++ e :: c2, n⟩, []))
    ∧ handleMessage ⟨c1 ++ e :: c2, n⟩ e.handle (some { type := some "set_username" })
        = (⟨c1 ++ e :: c2, n⟩, []) := by
  have hl : lookupEntry ⟨c1 ++ e :: c2, n⟩ e.handle = some e :=
    lookupEntry_of_nodup _ hnd e (by simp)
  obtain ⟨h1, h2⟩ := nodup_handles_split c1 c2 e hnd
  refine ⟨fun u hu1 hu2 => ?_, fun u hu => ?_, ?_⟩
  · have hup := updateEntry_middle c1 c2 e
      (fun x => { x with info := { x.info with username := jsTrim u } }) h1 h2
    have hopen2 : ∀ x ∈ c1 ++ { e with info := { e.info with username := jsTrim u } } :: c2,
        x.readyStateOpen = true := by
      intro x hx
      rcases List.mem_append.1 hx with hx1 | hx1
      · exact hopen x (List.mem_append.2 (Or.inl hx1))
      · rcases List.mem_cons.1 hx1 with rfl | hx2
        · exact hopen e (by simp)
        · exact hopen x (by simp [hx2])
    simp [handleMessage, hl, hu1, hu2, hup, broadcast_none_of_open _ _ hopen2]
  · have hzero : (jsTrim u).length = 0 := by rw [hu]; rfl
    simp [handleMessage, hl, hzero]
  · simp [handleMessage, hl]

/-- C4 (witness): renaming client 2 to "Alice" in the three-client state. -/
theorem set_username_routing_witness :
    ((([entA] ++ entB :: [entC]).map (fun x => x.handle)).Nodup
      ∧ (∀ x ∈ [entA] ++ entB :: [entC], x.readyStateOpen = true)
      ∧ " Alice " ≠ "" ∧ 0 < (jsTrim " Alice ").length)
    ∧ handleMessage ⟨[entA] ++ entB :: [entC], 3⟩ entB.handle
        (some { type := some "set_username", username := some " Alice " })
        = (⟨[entA] ++ { entB with info := { entB.info with username := jsTrim " Alice " } }
              :: [entC], 3⟩,
            Evt.send entB.handle ⟨.username_changed
                "Username changed from \"User_2\" to \"Alice\"" "Alice", false⟩
              :: ([entA] ++ entB :: [entC]).map (fun x => Evt.send x.handle
                  ⟨.user_renamed "User_2 changed username to Alice"
                      "User_2" "Alice" 2, false⟩)) :=
  ⟨⟨by decide, by decide, by decide, by decide⟩,
    (set_username_routing [entA] [entC] entB 3 (by decide) (by decide)).1
      " Alice " (by decide) (by decide)⟩

/-- C5: a handled chat whose text is absent, or present but empty after
trimming, produces zero outbound messages and leaves the state unchanged. -/
theorem chat_empty_text_dropped (st : ServerState) (h : Nat) :
    (∀ t : String, jsTrim t = "" →
      handleMessage st h (some { type := some "chat", text := some t }) = (st, []))
    ∧ handleMessage st h (some { type := some "chat" }) = (st, []) := by
  constructor
  · intro t ht
    have hzero : (jsTrim t).length = 0 := by rw [ht]; rfl
    rcases hl : lookupEntry st h with _ | e <;> simp [handleMessage, hl, hzero]
  · rcases hl : lookupEntry st h with _ | e <;> simp [handleMessage, hl]

/-- C5 (witness): `{type:"chat", text:"  "}` and `{type:"chat"}` at the
three-client state produce nothing. -/
theorem chat_empty_text_dropped_witness :
    (jsTrim "  " = ""
      ∧ handleMessage exSt3 1 (some { type := some "chat", text := some "  " }) = (exSt3, []))
    ∧ handleMessage exSt3 1 (some { type := some "chat" }) = (exSt3, []) :=
  ⟨⟨by decide, (chat_empty_text_dropped exSt3 1).1 "  " (by decide)⟩,
    (chat_empty_text_dropped exSt3 1).2⟩

/-- C10: a handled `private_message` with both fields present but falsy —
empty text or target id 0 — is silently dropped: no reply, no delivery, no
mutation, because the guard tests truthiness rather than presence. -/
theorem private_message_falsy_fields_dropped (st : ServerState) (h k : Nat) (t : String)
    (hor : t = "" ∨ k = 0) :
    handleMessage st h
        (some { type := some "private_message", targetClientId := some k, text := some t })
      = (st, []) := by
  rcases hl : lookupEntry st h with _ | e
  · simp [handleMessage, hl]
  · rcases hor with rfl | rfl <;> simp [handleMessage, hl]

/-- C10 (witness): target id 5 with empty text, and target id 0 with text,
are both dropped at the three-client state. -/
theorem private_message_falsy_fields_dropped_witness :
    (("" = "" ∨ (5 : Nat) = 0)
      ∧ handleMessage exSt3 1
          (some { type := some "private_message", targetClientId := some 5, text := some "" })
        = (exSt3, []))
    ∧ (("x" = "" ∨ (0 : Nat) = 0)
      ∧ handleMessage exSt3 1
          (some { type := some "private_message", targetClientId := some 0, text := some "x" })
        = (exSt3, [])) :=
  ⟨⟨Or.inl rfl, private_message_falsy_fields_dropped exSt3 1 5 "" (Or.inl rfl)⟩,
    ⟨Or.inr rfl, private_message_falsy_fields_dropped exSt3 1 0 "x" (Or.inr rfl)⟩⟩

/-- C6 (counterexample): with both fields present but the text empty (falsy),
a `private_message` whose target id 999 matches no connection yields no error
reply at all — the truthiness guard drops it before target resolution. -/
theorem private_message_no_target_no_error_counterexample :
    (exSt3.clients.all (fun x => x.info.id != 999) = true)
    ∧ handleMessage exSt3 1
        (some { type := some "private_message", targetClientId := some 999, text := some "" })
      = (exSt3, []) :=
  ⟨by decide, by decide⟩

/-- C6 (amended): for a handled `private_message` whose two fields are present
and truthy (target id non-zero, text non-empty): if no registered connection
has the target id, the sender receives exactly one error reply naming the
missing target, nothing is sent to anyone else and the state is unchanged; if
a connection with that id exists, it receives the private message and the
sender receives a delivery confirmation naming the target's username, again
with no mutation. -/
theorem private_message_routing (c1 c2 : List Entry) (e : Entry) (n : Nat) (k : Nat)
    (t : String)
    (hnd : ((c1 ++ e :: c2).map (fun x => x.handle)).Nodup)
    (hk : k ≠ 0) (ht : t ≠ "") :
    ((∀ x ∈ c1 ++ e :: c2, x.info.id ≠ k) →
      handleMessage ⟨c1 ++ e :: c2, n⟩ e.handle
          (some { type := some "private_message", targetClientId := some k, text := some t })
        = (⟨c1 ++ e :: c2, n⟩,
            [Evt.send e.handle ⟨.error s!"Target client {k} not found", false⟩]))
    ∧ (∀ target, ((c1 ++ e :: c2).map (fun x => x.info.id)).Nodup →
        target ∈ c1 ++ e :: c2 → target.info.id = k →
        handleMessage ⟨c1 ++ e :: c2, n⟩ e.handle
            (some { type := some "private_message", targetClientId := some k, text := some t })
          = (⟨c1 ++ e :: c2, n⟩,
              [Evt.send target.handle ⟨.private_message e.info.username e.info.id t, false⟩,
                Evt.send e.handle ⟨.private_message_sent target.info.username t, false⟩])) := by
  have hl : lookupEntry ⟨c1 ++ e :: c2, n⟩ e.handle = some e :=
    lookupEntry_of_nodup _ hnd e (by simp)
  constructor
  · intro hmiss
    have hfind : (c1 ++ e :: c2).find? (fun c => c.info.id == k) = none :=
      List.find?_eq_none.2 (fun x hx => by simp [hmiss x hx])
    simp [handleMessage, hl, hk, ht, hfind]
  · intro target hid htgt hkeq
    subst hkeq
    have hfind := find_key_of_nodup (fun x => x.info.id) (c1 ++ e :: c2) hid target htgt
    simp [handleMessage, hl, hk, ht, hfind]

/-- C6 (witness): an unknown target id 999 with truthy fields at the
three-client state draws exactly one error reply to the sender. -/
theorem private_message_routing_witness :
    ((([entA] ++ entB :: [entC]).map (fun x => x.handle)).Nodup
      ∧ (999 : Nat) ≠ 0 ∧ "x" ≠ ""
      ∧ (∀ x ∈ [entA] ++ entB :: [entC], x.info.id ≠ 999))
    ∧ handleMessage ⟨[entA] ++ entB :: [entC], 3⟩ entB.handle
        (some { type := some "private_message", targetClientId := some 999, text := some "x" })
      = (⟨[entA] ++ entB :: [entC], 3⟩,
          [Evt.send entB.handle ⟨.error "Target client 999 not found", false⟩]) :=
  ⟨⟨by decide, by decide, by decide, by decide⟩,
    (private_message_routing [entA] [entC] entB 3 999 "x" (by decide) (by decide)
        (by decide)).1 (by decide)⟩

/-- C7: an unparseable payload draws exactly one invalid-format error reply to
the sender with no state change, and no handled (parsed) message ever produces
that invalid-format error — the catch block is the only parse-error path. -/
theorem parse_error_only_path (st : ServerState) (h : Nat) :
    handleMessage st h none
      = (st, [Evt.send h ⟨.error "Invalid message format. Expected JSON.", false⟩])
    ∧ ∀ (m : InMsg) (h2 : Nat) (b : Bool),
        Evt.send h2 ⟨.error "Invalid message format. Expected JSON.", b⟩
          ∉ (handleMessage st h (some m)).2 := by
  constructor
  · rfl
  · intro m h2 b
    rcases hl : lookupEntry st h with _ | e
    · simp [handleMessage, hl]
    · simp only [handleMessage, hl]
      split <;> try simp
      all_goals try (split <;> try simp)
      all_goals try (split <;> try simp)
      all_goals try (split <;> try simp)
      all_goals (first
        | (intro _ heq
           exact absurd heq.symm (tgt_error_ne _))
        | (intro hmem
           obtain ⟨hh, bb, heq2⟩ := mem_broadcast_payload _ _ _ _ hmem
           simp at heq2))

/-- C7 (witness): the parse-error reply and the absence of that error on a
parsed `ping` at the three-client state. -/
theorem parse_error_only_path_witness :
    handleMessage exSt3 1 none
      = (exSt3, [Evt.send 1 ⟨.error "Invalid message format. Expected JSON.", false⟩])
    ∧ Evt.send 1 ⟨.error "Invalid message format. Expected JSON.", false⟩
        ∉ (handleMessage exSt3 1 (some { type := some "ping" })).2 :=
  ⟨(parse_error_only_path exSt3 1).1,
    (parse_error_only_path exSt3 1).2 { type := some "ping" } 1 false⟩

/-- C8: a handled `get_users` sends exactly one `user_list` reply, to the
sender only, whose `totalUsers` equals the registry's current size, whose
`users` hold one `{id, username, connectedAt, ip}` entry per registered
connection with no duplicate ids, and the registry is not mutated. -/
theorem get_users_reply (st : ServerState) (h : Nat) (e : Entry)
    (hl : lookupEntry st h = some e)
    (hid : (st.clients.map (fun x => x.info.id)).Nodup) :
    handleMessage st h (some { type := some "get_users" })
      = (st, [Evt.send h ⟨.user_list
            (st.clients.map (fun c =>
              ⟨c.info.id, c.info.username, c.info.connectedAt, c.info.ip⟩))
            st.clients.length, false⟩])
    ∧ ((st.clients.map (fun c =>
          (⟨c.info.id, c.info.username, c.info.connectedAt, c.info.ip⟩ : UserEntry))).map
        (fun u => u.id)).Nodup := by
  constructor
  · simp [handleMessage, hl]
  · rw [List.map_map]
    exact hid

/-- C8 (witness): the `user_list` snapshot at the three-client state. -/
theorem get_users_reply_witness :
    (lookupEntry exSt3 1 = some entA
      ∧ (exSt3.clients.map (fun x => x.info.id)).Nodup)
    ∧ (handleMessage exSt3 1 (some { type := some "get_users" })
        = (exSt3, [Evt.send 1 ⟨.user_list
              (exSt3.clients.map (fun c =>
                ⟨c.info.id, c.info.username, c.info.connectedAt, c.info.ip⟩))
              exSt3.clients.length, false⟩])
      ∧ ((exSt3.clients.map (fun c =>
            (⟨c.info.id, c.info.username, c.info.connectedAt, c.info.ip⟩ : UserEntry))).map
          (fun u => u.id)).Nodup) :=
  ⟨⟨by decide, by decide⟩, get_users_reply exSt3 1 entA (by decide) (by decide)⟩

/-- C9: on a new connection, after the welcome the joining client itself
receives the `user_joined` announcement of its own join augmented with
`acknowledged: true`, while every other open connection gets the plain
message; the joiner is not excluded from its own join broadcast. -/
theorem user_joined_ack_to_joiner (st : ServerState) (h : Nat) (ip : String) (now : Nat)
    (hfresh : ∀ x ∈ st.clients, x.handle ≠ h)
    (hopen : ∀ x ∈ st.clients, x.readyStateOpen = true) :
    handleConnection st h ip now
      = (⟨st.clients ++ [⟨h, true, true,
            ⟨st.clientCounter + 1, ip, now, s!"User_{st.clientCounter + 1}", true⟩⟩],
          st.clientCounter + 1⟩,
        Evt.send h ⟨.welcome
            s!"Welcome to the WebSocket Server! Your ID: {st.clientCounter + 1}"
            (st.clientCounter + 1), false⟩
          :: (st.clients.map (fun x => Evt.send x.handle
              ⟨.user_joined s!"User_{st.clientCounter + 1} joined the chat"
                (st.clientCounter + 1), false⟩)
            ++ [Evt.send h ⟨.user_joined s!"User_{st.clientCounter + 1} joined the chat"
                (st.clientCounter + 1), true⟩])) := by
  have hset := mapSet_fresh st.clients ⟨h, true, true,
    ⟨st.clientCounter + 1, ip, now, s!"User_{st.clientCounter + 1}", true⟩⟩ hfresh
  simp only [handleConnection, hset, broadcast_append,
    broadcast_single_self ⟨h, true, true,
      ⟨st.clientCounter + 1, ip, now, s!"User_{st.clientCounter + 1}", true⟩⟩ _ rfl,
    broadcast_sender_not_mem st.clients _ h hopen hfresh]
  simp [str_toString_eq, String.empty_append, String.append_empty]

/-- C9 (witness): a fourth client joining the three-client state. -/
theorem user_joined_ack_to_joiner_witness :
    ((∀ x ∈ exSt3.clients, x.handle ≠ 4)
      ∧ (∀ x ∈ exSt3.clients, x.readyStateOpen = true))
    ∧ handleConnection exSt3 4 "ipD" 3
      = (⟨exSt3.clients ++ [⟨4, true, true, ⟨4, "ipD", 3, "User_4", true⟩⟩], 4⟩,
        Evt.send 4 ⟨.welcome "Welcome to the WebSocket Server! Your ID: 4" 4, false⟩
          :: (exSt3.clients.map (fun x => Evt.send x.handle
              ⟨.user_joined "User_4 joined the chat" 4, false⟩)
            ++ [Evt.send 4 ⟨.user_joined "User_4 joined the chat" 4, true⟩])) :=
  ⟨⟨by decide, by decide⟩, user_joined_ack_to_joiner exSt3 4 "ipD" 3 (by decide) (by decide)⟩

/-- `ws.on('close')` never touches the id counter. -/
theorem handleClose_counter (st : ServerState) (h : Nat) :
    (handleClose st h).1.clientCounter = st.clientCounter := by
  rcases hl : lookupEntry st h with _ | e <;> simp [handleClose, hl]

/-- `ws.on('close')` only ever removes entries. -/
theorem handleClose_clients_sublist (st : ServerState) (h : Nat) :
    (handleClose st h).1.clients.Sublist st.clients := by
  rcases hl : lookupEntry st h with _ | e
  · simp [handleClose, hl]
  · have hc : (handleClose st h).1.clients = st.clients.filter (fun x => x.handle != h) := by
      simp [handleClose, hl, mapDelete]
    rw [hc]
    exact List.filter_sublist st.clients

/-- The state a connection event produces, when the handle is fresh. -/
theorem handleConnection_fst (st : ServerState) (h : Nat) (ip : String) (now : Nat)
    (hfresh : ∀ x ∈ st.clients, x.handle ≠ h) :
    (handleConnection st h ip now).1
      = ⟨st.clients ++ [⟨h, true, true,
          ⟨st.clientCounter + 1, ip, now, s!"User_{st.clientCounter + 1}", true⟩⟩],
        st.clientCounter + 1⟩ := by
  have hset := mapSet_fresh st.clients ⟨h, true, true,
    ⟨st.clientCounter + 1, ip, now, s!"User_{st.clientCounter + 1}", true⟩⟩ hfresh
  simp [handleConnection, hset]

/-- The ids a run hands out are the consecutive counter values. -/
theorem assignedIds_eq_range (evs : List CDEvent) : ∀ st : ServerState,
    assignedIds st evs = List.range' (st.clientCounter + 1) (connectHandles evs).length := by
  induction evs with
  | nil => intro st; rfl
  | cons ev evs ih =>
    intro st
    cases ev with
    | connect h ip now =>
      show (handleConnection st h ip now).1.clientCounter
          :: assignedIds (handleConnection st h ip now).1 evs = _
      rw [ih]
      have hc : (handleConnection st h ip now).1.clientCounter = st.clientCounter + 1 := rfl
      rw [hc]
      rfl
    | disconnect h =>
      show assignedIds (handleClose st h).1 evs = _
      rw [ih, handleClose_counter]
      rfl

/-- Connect handles distribute over run concatenation. -/
theorem connectHandles_append : ∀ p q : List CDEvent,
    connectHandles (p ++ q) = connectHandles p ++ connectHandles q := by
  intro p q
  induction p with
  | nil => rfl
  | cons ev evs ih => cases ev <;> simp [connectHandles, ih]

/-- A connect with a fresh handle preserves the registry invariants. -/
theorem RegInv_connect (st : ServerState) (h : Nat) (ip : String) (now : Nat)
    (hinv : RegInv st) (hfresh : ∀ x ∈ st.clients, x.handle ≠ h) :
    RegInv (handleConnection st h ip now).1 := by
  obtain ⟨hb, hid, hh⟩ := hinv
  rw [handleConnection_fst st h ip now hfresh]
  refine ⟨?_, ?_, ?_⟩
  · intro e he
    rcases List.mem_append.1 he with h1 | h1
    · exact ⟨(hb e h1).1, Nat.le_succ_of_le (hb e h1).2⟩
    · rw [List.mem_singleton.1 h1]
      exact ⟨rfl, Nat.le_refl _⟩
  · rw [List.map_append, List.nodup_append]
    refine ⟨hid, by simp, ?_⟩
    intro a ha hb2
    simp only [List.map_cons, List.map_nil, List.mem_singleton] at hb2
    rcases List.mem_map.1 ha with ⟨x, hx, hxa⟩
    have := (hb x hx).2
    omega
  · rw [List.map_append, List.nodup_append]
    refine ⟨hh, by simp, ?_⟩
    intro a ha hb2
    simp only [List.map_cons, List.map_nil, List.mem_singleton] at hb2
    rcases List.mem_map.1 ha with ⟨x, hx, hxa⟩
    exact hfresh x hx (by rw [hxa]; exact hb2)

/-- A disconnect preserves the registry invariants. -/
theorem RegInv_disconnect (st : ServerState) (h : Nat) (hinv : RegInv st) :
    RegInv (handleClose st h).1 := by
  obtain ⟨hb, hid, hh⟩ := hinv
  have hsub := handleClose_clients_sublist st h
  refine ⟨?_, ?_, ?_⟩
  · intro e he
    have he2 := hsub.subset he
    rw [handleClose_counter]
    exact hb e he2
  · exact hid.sublist (hsub.map (fun e => e.info.id))
  · exact hh.sublist (hsub.map (fun e => e.handle))

/-- Whole-run invariant preservation, tracking that registered handles stem
from the initial state or from the run's connects. -/
theorem cdRun_inv : ∀ (evs : List CDEvent) (st : ServerState),
    RegInv st → (connectHandles evs).Nodup →
    (∀ h2 ∈ connectHandles evs, ∀ x ∈ st.clients, x.handle ≠ h2) →
    RegInv (cdRun st evs)
    ∧ ∀ x ∈ (cdRun st evs).clients,
        (x.handle ∈ st.clients.map (fun e => e.handle) ∨ x.handle ∈ connectHandles evs) := by
  intro evs
  induction evs with
  | nil =>
    intro st h1 _ _
    exact ⟨h1, fun x hx => Or.inl (List.mem_map_of_mem _ hx)⟩
  | cons ev evs ih =>
    intro st hinv hnd hfresh
    cases ev with
    | connect h ip now =>
      have hheadmem : h ∈ connectHandles (CDEvent.connect h ip now :: evs) := by
        simp [connectHandles]
      have hfresh1 : ∀ x ∈ st.clients, x.handle ≠ h := hfresh h hheadmem
      have hinv1 := RegInv_connect st h ip now hinv hfresh1
      have hnd2 : (h :: connectHandles evs).Nodup := hnd
      have hndrest := (List.nodup_cons.1 hnd2).2
      have hnotin := (List.nodup_cons.1 hnd2).1
      have hcl := handleConnection_fst st h ip now hfresh1
      have hfresh2 : ∀ h2 ∈ connectHandles evs,
          ∀ x ∈ (handleConnection st h ip now).1.clients, x.handle ≠ h2 := by
        intro h2 hh2 x hx
        rw [hcl] at hx
        rcases List.mem_append.1 hx with h1 | h1
        · exact hfresh h2 (by simp [connectHandles, hh2]) x h1
        · rw [List.mem_singleton.1 h1]
          intro hcon
          exact hnotin (by rw [← hcon] at hh2; exact hh2)
      have hrun := ih (handleConnection st h ip now).1 hinv1 hndrest hfresh2
      refine ⟨hrun.1, ?_⟩
      intro x hx
      rcases hrun.2 x hx with h1 | h1
      · rw [hcl] at h1
        simp only [List.map_append, List.mem_append, List.map_cons, List.map_nil,
          List.mem_singleton] at h1
        rcases h1 with h1 | h1
        · exact Or.inl h1
        · exact Or.inr (by simp [connectHandles, h1])
      · exact Or.inr (by simp [connectHandles, h1])
    | disconnect h =>
      have hinv1 := RegInv_disconnect st h hinv
      have hsub := handleClose_clients_sublist st h
      have hfresh2 : ∀ h2 ∈ connectHandles evs,
          ∀ x ∈ (handleClose st h).1.clients, x.handle ≠ h2 := by
        intro h2 hh2 x hx
        exact hfresh h2 (by simp [connectHandles, hh2]) x (hsub.subset hx)
      have hrun := ih (handleClose st h).1 hinv1
        (by simpa [connectHandles] using hnd) hfresh2
      refine ⟨hrun.1, ?_⟩
      intro x hx
      rcases hrun.2 x hx with h1 | h1
      · rcases List.mem_map.1 h1 with ⟨y, hy, hya⟩
        exact Or.inl (List.mem_map.2 ⟨y, hsub.subset hy, hya⟩)
      · exact Or.inr (by simp [connectHandles, h1])

/-- C3: along any run of connect/disconnect events (with transport handles
never reused across connects, as the transport guarantees): registration never
fails and the assigned ids are exactly the consecutive integers starting at 1
— strictly increasing and never reused even after disconnects; after every
event of the run, all registry entries are open connections (so its size
equals the number of currently registered open connections) and no id occurs
twice in the mapping. -/
theorem registry_run_invariants (evs : List CDEvent)
    (hnd : (connectHandles evs).Nodup) :
    assignedIds initialState evs = List.range' 1 (connectHandles evs).length
    ∧ ∀ p q, evs = p ++ q →
        (((cdRun initialState p).clients.map (fun e => e.info.id)).Nodup
          ∧ (cdRun initialState p).clients.filter (fun e => e.readyStateOpen)
              = (cdRun initialState p).clients) := by
  constructor
  · have := assignedIds_eq_range evs initialState
    simpa [initialState] using this
  · intro p q hpq
    have hndp : (connectHandles p).Nodup := by
      subst hpq
      rw [connectHandles_append] at hnd
      exact hnd.of_append_left
    have hinv0 : RegInv initialState := by
      refine ⟨?_, ?_, ?_⟩ <;> simp [initialState]
    have hrun := cdRun_inv p initialState hinv0 hndp (by simp [initialState])
    obtain ⟨⟨hb, hid, hh⟩, _⟩ := hrun
    exact ⟨hid, List.filter_eq_self.2 (fun x hx => by simp [(hb x hx).1])⟩

/-- C3 (witness): the invariants along the concrete example run. -/
theorem registry_run_invariants_witness :
    (connectHandles exRun).Nodup
    ∧ (assignedIds initialState exRun = List.range' 1 (connectHandles exRun).length
      ∧ ∀ p q, exRun = p ++ q →
          (((cdRun initialState p).clients.map (fun e => e.info.id)).Nodup
            ∧ (cdRun initialState p).clients.filter (fun e => e.readyStateOpen)
                = (cdRun initialState p).clients)) :=
  ⟨by decide, registry_run_invariants exRun (by decide)⟩

/-- Updating the entry of one handle leaves lookups of other handles alone. -/
theorem find_handle_updateEntry_ne (clients : List Entry) (h h2 : Nat) (f : Entry → Entry)
    (hf : ∀ x, (f x).handle = x.handle) (hne : h2 ≠ h) :
    (updateEntry clients h f).find? (fun e => e.handle == h2)
      = clients.find? (fun e => e.handle == h2) := by
  induction clients with
  | nil => rfl
  | cons y ys ih =>
    simp only [updateEntry, List.map_cons] at ih ⊢
    by_cases hy : y.handle = h
    · have hfy : (if (y.handle == h) = true then f y else y) = f y := by simp [hy]
      rw [hfy]
      rw [List.find?_cons_of_neg _ (by simp [hf y, hy, Ne.symm hne]),
        List.find?_cons_of_neg _ (by simp [hy, Ne.symm hne])]
      exact ih
    · have hfy : (if (y.handle == h) = true then f y else y) = y := by simp [hy]
      rw [hfy]
      by_cases hy2 : y.handle = h2
      · rw [List.find?_cons_of_pos _ (by simp [hy2]), List.find?_cons_of_pos _ (by simp [hy2])]
      · rw [List.find?_cons_of_neg _ (by simp [hy2]), List.find?_cons_of_neg _ (by simp [hy2])]
        exact ih

/-- A round of pong events sets the heartbeat flag of the acknowledged handles. -/
theorem pong_foldl (hs : List Nat) : ∀ st : ServerState,
    hs.foldl handlePong st
      = ⟨st.clients.map (fun e => if e.handle ∈ hs then { e with wsAlive := true } else e),
          st.clientCounter⟩ := by
  induction hs with
  | nil =>
    intro st
    simp
  | cons h hs ih =>
    intro st
    rw [List.foldl_cons, ih]
    simp only [handlePong, updateEntry, List.map_map]
    congr 1
    apply List.map_congr_left
    intro x _
    obtain ⟨hdl, rs, wa, inf⟩ := x
    by_cases hxh : hdl = h
    · subst hxh
      by_cases hmem : hdl ∈ hs <;> simp [hmem]
    · by_cases hmem : hdl ∈ hs <;> simp [Function.comp, hxh, hmem, List.mem_cons]

/-- `sendEvents` distributes over append. -/
theorem sendEvents_append (l1 l2 : List Evt) :
    sendEvents (l1 ++ l2) = sendEvents l1 ++ sendEvents l2 := by
  simp [sendEvents]

/-- Probes contribute no sends. -/
theorem sendEvents_probe_map (l : List Entry) :
    sendEvents (l.map (fun x => Evt.probe x.handle)) = [] := by
  induction l with
  | nil => rfl
  | cons y ys ih => simp [sendEvents] at ih ⊢

/-- A block of sends is kept whole by `sendEvents`. -/
theorem sendEvents_send_map (l : List Entry) (msg : OutMsg) :
    sendEvents (l.map (fun x => Evt.send x.handle msg))
      = l.map (fun x => Evt.send x.handle msg) := by
  induction l with
  | nil => rfl
  | cons y ys ih => simp [sendEvents] at ih ⊢

/-- A leading probe contributes no send. -/
theorem sendEvents_cons_probe (h : Nat) (l : List Evt) :
    sendEvents (Evt.probe h :: l) = sendEvents l := rfl

/-- A leading termination contributes no send. -/
theorem sendEvents_cons_terminate (h : Nat) (l : List Evt) :
    sendEvents (Evt.terminate h :: l) = sendEvents l := rfl

/-- The heartbeat fold over handles whose connections are all alive: each is
moved to pending-check and probed, nothing else happens. -/
theorem tick_foldl_alive : ∀ (hs : List Nat) (st : ServerState) (acc : List Evt),
    hs.Nodup →
    (∀ h ∈ hs, ∃ e, lookupEntry st h = some e ∧ e.wsAlive = true) →
    hs.foldl tickStep (st, acc)
      = (⟨st.clients.map (fun e => if e.handle ∈ hs then { e with wsAlive := false } else e),
            st.clientCounter⟩,
          acc ++ hs.map Evt.probe) := by
  intro hs
  induction hs with
  | nil =>
    intro st acc _ _
    simp
  | cons h hs ih =>
    intro st acc hnd hal
    obtain ⟨e, hle, hea⟩ := hal h (List.mem_cons_self h hs)
    have hnotin := (List.nodup_cons.1 hnd).1
    have hstep : tickStep (st, acc) h
        = (⟨updateEntry st.clients h (fun x => { x with wsAlive := false }), st.clientCounter⟩,
            acc ++ [Evt.probe h]) := by
      simp [tickStep, hle, hea]
    have hal2 : ∀ h2 ∈ hs, ∃ e2, lookupEntry
        ⟨updateEntry st.clients h (fun x => { x with wsAlive := false }), st.clientCounter⟩ h2
          = some e2 ∧ e2.wsAlive = true := by
      intro h2 hh2
      obtain ⟨e2, hle2, hea2⟩ := hal h2 (List.mem_cons_of_mem h hh2)
      refine ⟨e2, ?_, hea2⟩
      have hne2 : h2 ≠ h := fun hcon => hnotin (hcon ▸ hh2)
      show (updateEntry st.clients h (fun x => { x with wsAlive := false })).find?
          (fun e2 => e2.handle == h2) = some e2
      rw [find_handle_updateEntry_ne st.clients h h2
        (fun x => { x with wsAlive := false }) (fun x => rfl) hne2]
      exact hle2
    rw [List.foldl_cons, hstep, ih _ _ (List.nodup_cons.1 hnd).2 hal2]
    simp only [Prod.mk.injEq, ServerState.mk.injEq]
    refine ⟨⟨?_, by simp⟩, by simp⟩
    · simp only [updateEntry, List.map_map]
      apply List.map_congr_left
      intro x _
      obtain ⟨hdl, rs, wa, inf⟩ := x
      by_cases hxh : hdl = h
      · subst hxh
        simp [hnotin]
      · by_cases hmem : hdl ∈ hs <;> simp [Function.comp, hxh, hmem, List.mem_cons]



/-- A heartbeat tick on an all-alive registry: every connection is moved to
pending-check and probed; nothing is sent or evicted. -/
theorem heartbeatTick_all_alive (st : ServerState)
    (hnd : (st.clients.map (fun e => e.handle)).Nodup)
    (hal : ∀ x ∈ st.clients, x.wsAlive = true) :
    heartbeatTick st
      = (⟨st.clients.map (fun e => { e with wsAlive := false }), st.clientCounter⟩,
          st.clients.map (fun e => Evt.probe e.handle)) := by
  have hal2 : ∀ h ∈ st.clients.map (fun e => e.handle),
      ∃ e, lookupEntry st h = some e ∧ e.wsAlive = true := by
    intro h hh
    rcases List.mem_map.1 hh with ⟨x, hx, rfl⟩
    exact ⟨x, lookupEntry_of_nodup st hnd x hx, hal x hx⟩
  unfold heartbeatTick
  rw [tick_foldl_alive (st.clients.map (fun e => e.handle)) st [] hnd hal2]
  simp only [Prod.mk.injEq, ServerState.mk.injEq, List.nil_append, List.map_map]
  refine ⟨⟨?_, by simp⟩, by simp⟩
  apply List.map_congr_left
  intro x hx
  simp [List.mem_map_of_mem _ hx]



/-- A conditional map whose condition never fires is the identity. -/
theorem map_ite_not_mem (l : List Entry) (hs : List Nat) (f : Entry → Entry)
    (hn : ∀ x ∈ l, x.handle ∉ hs) :
    l.map (fun x => if x.handle ∈ hs then f x else x) = l := by
  induction l with
  | nil => rfl
  | cons y ys ih =>
    simp only [List.map_cons, List.cons.injEq]
    exact ⟨by simp [hn y (List.mem_cons_self y ys)],
      ih (fun x hx => hn x (List.mem_cons_of_mem y hx))⟩

/-- A conditional map whose condition always fires is the plain map. -/
theorem map_ite_all_mem (l : List Entry) (hs : List Nat) (f : Entry → Entry)
    (hn : ∀ x ∈ l, x.handle ∈ hs) :
    l.map (fun x => if x.handle ∈ hs then f x else x) = l.map f := by
  induction l with
  | nil => rfl
  | cons y ys ih =>
    simp only [List.map_cons, List.cons.injEq]
    exact ⟨by simp [hn y (List.mem_cons_self y ys)],
      ih (fun x hx => hn x (List.mem_cons_of_mem y hx))⟩

/-- A heartbeat tick on a registry where exactly the middle connection is
still pending-check: the others are probed in order, the pending one is
terminated and removed, and the normal leave path broadcasts one `user_left`
to every remaining connection. -/
theorem heartbeatTick_one_pending (c1 c2 : List Entry) (e : Entry) (n : Nat)
    (hnd : ((c1 ++ e :: c2).map (fun x => x.handle)).Nodup)
    (hopen : ∀ x ∈ c1 ++ e :: c2, x.readyStateOpen = true)
    (hc1 : ∀ x ∈ c1, x.wsAlive = true) (hc2 : ∀ x ∈ c2, x.wsAlive = true)
    (he : e.wsAlive = false) :
    heartbeatTick ⟨c1 ++ e :: c2, n⟩
      = (⟨(c1 ++ c2).map (fun x => { x with wsAlive := false }), n⟩,
          c1.map (fun x => Evt.probe x.handle)
            ++ Evt.terminate e.handle
              :: ((c1 ++ c2).map (fun x => Evt.send x.handle
                    ⟨.user_left s!"{e.info.username} left the chat" e.info.id, false⟩)
                ++ c2.map (fun x => Evt.probe x.handle))) := by
  obtain ⟨hd1, hd2⟩ := nodup_handles_split c1 c2 e hnd
  have hndapp := hnd
  rw [List.map_append] at hndapp
  have hsplit := List.nodup_append.1 hndapp
  have hnd1 : (c1.map fun x => x.handle).Nodup := hsplit.1
  have hndec2 := hsplit.2.1
  have hnd2 : (c2.map fun x => x.handle).Nodup := by
    simp only [List.map_cons, List.nodup_cons] at hndec2
    exact hndec2.2
  have henotc2 : e.handle ∉ (c2.map fun x => x.handle) := by
    have := hsplit.2.1
    simp only [List.map_cons, List.nodup_cons] at this
    exact this.1
  have hdisj := hsplit.2.2
  have hd3 : ∀ x ∈ c2, x.handle ∉ (c1.map fun y => y.handle) := by
    intro x hx hmem
    exact hdisj hmem (List.mem_map_of_mem _ (List.mem_cons_of_mem e hx))
  have henotc1 : e.handle ∉ (c1.map fun y => y.handle) := by
    intro hmem
    exact hdisj hmem (List.mem_map_of_mem _ (List.mem_cons_self e c2))
  have hd4 : ∀ y ∈ c1, y.handle ∉ (c2.map fun x => x.handle) := by
    intro y hy hmem
    refine hdisj (List.mem_map_of_mem _ hy) ?_
    simp only [List.map_cons]
    exact List.mem_cons_of_mem _ hmem
  -- phase A: all connections before the pending one are probed
  have halA : ∀ h ∈ (c1.map fun x => x.handle),
      ∃ e2, lookupEntry ⟨c1 ++ e :: c2, n⟩ h = some e2 ∧ e2.wsAlive = true := by
    intro h hh
    rcases List.mem_map.1 hh with ⟨x, hx, rfl⟩
    exact ⟨x, lookupEntry_of_nodup _ hnd x (List.mem_append.2 (Or.inl hx)), hc1 x hx⟩
  unfold heartbeatTick
  rw [show ((⟨c1 ++ e :: c2, n⟩ : ServerState).clients.map (fun x => x.handle))
      = (c1.map fun x => x.handle) ++ e.handle :: (c2.map fun x => x.handle) by simp]
  rw [List.foldl_append, List.foldl_cons]
  rw [tick_foldl_alive _ _ _ hnd1 halA]
  have hA : (((⟨c1 ++ e :: c2, n⟩ : ServerState).clients).map
      (fun x => if x.handle ∈ (c1.map fun y => y.handle)
          then { x with wsAlive := false } else x))
      = (c1.map fun x : Entry => { x with wsAlive := false }) ++ e :: c2 := by
    show ((c1 ++ e :: c2).map _) = _
    rw [List.map_append, List.map_cons]
    rw [map_ite_all_mem c1 _ _ (fun x hx => List.mem_map_of_mem _ hx)]
    rw [map_ite_not_mem c2 _ _ hd3]
    simp [henotc1]
  rw [hA]
  -- phase B: the pending connection is terminated and the leave path runs
  have hndA : ((((c1.map fun x : Entry => { x with wsAlive := false }) ++ e :: c2).map
      fun x : Entry => x.handle)).Nodup := by
    have heq : (((c1.map fun x : Entry => { x with wsAlive := false }) ++ e :: c2).map
        fun x : Entry => x.handle) = (c1 ++ e :: c2).map (fun x => x.handle) := by
      simp [List.map_append, List.map_map]
    rw [heq]
    exact hnd
  have hlB : lookupEntry ⟨(c1.map fun x : Entry => { x with wsAlive := false }) ++ e :: c2, n⟩
      e.handle = some e :=
    lookupEntry_of_nodup _ hndA e (by simp)
  have hstepB : ∀ acc : List Evt,
      tickStep (⟨(c1.map fun x : Entry => { x with wsAlive := false }) ++ e :: c2, n⟩, acc) e.handle
        = (⟨(c1.map fun x : Entry => { x with wsAlive := false }) ++ c2, n⟩,
            acc ++ Evt.terminate e.handle
              :: ((c1 ++ c2).map (fun x => Evt.send x.handle
                  ⟨.user_left s!"{e.info.username} left the chat" e.info.id, false⟩))) := by
    intro acc
    have hdel : mapDelete ((c1.map fun x : Entry => { x with wsAlive := false }) ++ e :: c2) e.handle
        = (c1.map fun x : Entry => { x with wsAlive := false }) ++ c2 :=
      mapDelete_middle _ _ _
        (fun x hx => by
          rcases List.mem_map.1 hx with ⟨y, hy, rfl⟩
          simpa using hd1 y hy)
        hd2
    have hopen2 : ∀ x ∈ (c1.map fun x : Entry => { x with wsAlive := false }) ++ c2,
        x.readyStateOpen = true := by
      intro x hx
      rcases List.mem_append.1 hx with h1 | h1
      · rcases List.mem_map.1 h1 with ⟨y, hy, rfl⟩
        simpa using hopen y (List.mem_append.2 (Or.inl hy))
      · exact hopen x (by simp [h1])
    simp only [tickStep, hlB, he, Bool.false_eq_true, if_false]
    simp only [handleClose, hlB, hdel, broadcast_none_of_open _ _ hopen2]
    simp [List.map_append, List.map_map]
  have hcounter : ({ clients := c1 ++ e :: c2, clientCounter := n } : ServerState).clientCounter
      = n := rfl
  rw [hcounter, hstepB]
  -- phase C: the connections after the evicted one are probed
  have hndBC : ((((c1.map fun x : Entry => { x with wsAlive := false }) ++ c2).map
      fun x : Entry => x.handle)).Nodup := by
    have heq : (((c1.map fun x : Entry => { x with wsAlive := false }) ++ c2).map
        fun x : Entry => x.handle) = (c1.map fun x => x.handle) ++ (c2.map fun x => x.handle) := by
      simp [List.map_append, List.map_map]
    rw [heq]
    refine hndapp.sublist ?_
    simp only [List.map_cons]
    exact List.Sublist.append_left (List.sublist_cons_self e.handle _) _
  have halC : ∀ h ∈ (c2.map fun x => x.handle),
      ∃ e2, lookupEntry ⟨(c1.map fun x : Entry => { x with wsAlive := false }) ++ c2, n⟩ h
        = some e2 ∧ e2.wsAlive = true := by
    intro h hh
    rcases List.mem_map.1 hh with ⟨x, hx, rfl⟩
    exact ⟨x, lookupEntry_of_nodup _ hndBC x (by simp [hx]), hc2 x hx⟩
  rw [tick_foldl_alive _ _ _ hnd2 halC]
  simp only [Prod.mk.injEq, ServerState.mk.injEq]
  refine ⟨⟨?_, by simp⟩, ?_⟩
  · rw [List.map_append]
    have hn1 : ∀ x ∈ (c1.map (fun y : Entry => { y with wsAlive := false })),
        x.handle ∉ (c2.map fun y => y.handle) := by
      intro x hx
      rcases List.mem_map.1 hx with ⟨y, hy, rfl⟩
      simpa using hd4 y hy
    rw [map_ite_not_mem _ _ _ hn1]
    rw [map_ite_all_mem c2 _ _ (fun x hx => List.mem_map_of_mem _ hx)]
    simp [List.map_append]
  · simp [List.map_map, List.append_assoc, Function.comp_def]



/-- C2: starting from a registry of open, alive connections with `e`
registered among them: the first heartbeat tick moves every connection
(`e` included) to pending-check and probes it, producing no sends; when
every other connection acknowledges but `e` stays silent, the second tick
terminates the transport of `e`, removes it from the registry, and its sends
are exactly one `user_left` (carrying the name and id of `e`) to each
remaining connection; when the acknowledgment of `e` also arrives before the
second tick,
`e` is still registered after it. -/
theorem liveness_two_missed_probes (c1 c2 : List Entry) (e : Entry) (n : Nat)
    (hnd : ((c1 ++ e :: c2).map (fun x => x.handle)).Nodup)
    (hopen : ∀ x ∈ c1 ++ e :: c2, x.readyStateOpen = true)
    (halive : ∀ x ∈ c1 ++ e :: c2, x.wsAlive = true) :
    (lookupEntry (heartbeatTick ⟨c1 ++ e :: c2, n⟩).1 e.handle
        = some { e with wsAlive := false }
      ∧ Evt.probe e.handle ∈ (heartbeatTick ⟨c1 ++ e :: c2, n⟩).2
      ∧ sendEvents (heartbeatTick ⟨c1 ++ e :: c2, n⟩).2 = [])
    ∧ (lookupEntry (heartbeatTick (((c1 ++ c2).map (fun x => x.handle)).foldl handlePong
            (heartbeatTick ⟨c1 ++ e :: c2, n⟩).1)).1 e.handle = none
      ∧ Evt.terminate e.handle ∈ (heartbeatTick (((c1 ++ c2).map (fun x => x.handle)).foldl
            handlePong (heartbeatTick ⟨c1 ++ e :: c2, n⟩).1)).2
      ∧ sendEvents (heartbeatTick (((c1 ++ c2).map (fun x => x.handle)).foldl handlePong
            (heartbeatTick ⟨c1 ++ e :: c2, n⟩).1)).2
          = (c1 ++ c2).map (fun x => Evt.send x.handle
              ⟨.user_left s!"{e.info.username} left the chat" e.info.id, false⟩))
    ∧ lookupEntry (heartbeatTick (((c1 ++ e :: c2).map (fun x => x.handle)).foldl handlePong
          (heartbeatTick ⟨c1 ++ e :: c2, n⟩).1)).1 e.handle
        = some { e with wsAlive := false } := by
  obtain ⟨hd1, hd2⟩ := nodup_handles_split c1 c2 e hnd
  have hr1 : heartbeatTick ⟨c1 ++ e :: c2, n⟩
      = (⟨(c1 ++ e :: c2).map (fun x => { x with wsAlive := false }), n⟩,
          (c1 ++ e :: c2).map (fun x => Evt.probe x.handle)) :=
    heartbeatTick_all_alive ⟨c1 ++ e :: c2, n⟩ hnd halive
  have hmapF : ∀ (l : List Entry) (f : Entry → Entry), (∀ x, (f x).handle = x.handle) →
      (l.map f).map (fun x => x.handle) = l.map (fun x => x.handle) := by
    intro l f hf
    rw [List.map_map]
    exact List.map_congr_left (fun x _ => hf x)
  have hnotmem : e.handle ∉ (c1 ++ c2).map (fun x => x.handle) := by
    intro hmem
    rcases List.mem_map.1 hmem with ⟨y, hy, heq⟩
    rcases List.mem_append.1 hy with h1 | h1
    · exact hd1 y h1 heq
    · exact hd2 y h1 heq
  -- the registry after the silent pong round: everyone but `e` is alive again
  have hpong : ((c1 ++ c2).map (fun x => x.handle)).foldl handlePong
      (heartbeatTick ⟨c1 ++ e :: c2, n⟩).1
      = ⟨(c1.map fun x : Entry => { x with wsAlive := true })
          ++ { e with wsAlive := false }
            :: (c2.map fun x : Entry => { x with wsAlive := true }), n⟩ := by
    rw [hr1, pong_foldl]
    simp only [ServerState.mk.injEq]
    refine ⟨?_, by simp⟩
    rw [List.map_map, List.map_append, List.map_cons]
    congr 1
    · apply List.map_congr_left
      intro x hx
      have hmem : x.handle ∈ (c1 ++ c2).map (fun y => y.handle) :=
        List.mem_map_of_mem _ (List.mem_append.2 (Or.inl hx))
      simp only [Function.comp_def]
      split
      · rfl
      · rename_i hcon
        exact absurd hmem hcon
    · congr 1
      · simp only [Function.comp_def]
        rw [if_neg]
        exact hnotmem
      · apply List.map_congr_left
        intro x hx
        have hmem : x.handle ∈ (c1 ++ c2).map (fun y => y.handle) :=
          List.mem_map_of_mem _ (List.mem_append.2 (Or.inr hx))
        simp only [Function.comp_def]
        split
        · rfl
        · rename_i hcon
          exact absurd hmem hcon
  -- the second tick on that registry
  have hnd2 : (((c1.map fun x : Entry => { x with wsAlive := true })
      ++ { e with wsAlive := false }
        :: (c2.map fun x : Entry => { x with wsAlive := true })).map
          (fun x : Entry => x.handle)).Nodup := by
    have heq : ((c1.map fun x : Entry => { x with wsAlive := true })
        ++ { e with wsAlive := false }
          :: (c2.map fun x : Entry => { x with wsAlive := true })).map
            (fun x : Entry => x.handle)
        = (c1 ++ e :: c2).map (fun x => x.handle) := by
      simp [List.map_append, List.map_map, Function.comp_def]
    rw [heq]
    exact hnd
  have hopen2 : ∀ x ∈ (c1.map fun x : Entry => { x with wsAlive := true })
      ++ { e with wsAlive := false }
        :: (c2.map fun x : Entry => { x with wsAlive := true }), x.readyStateOpen = true := by
    intro x hx
    rcases List.mem_append.1 hx with h1 | h1
    · rcases List.mem_map.1 h1 with ⟨y, hy, rfl⟩
      simpa using hopen y (List.mem_append.2 (Or.inl hy))
    · rcases List.mem_cons.1 h1 with rfl | h1
      · simpa using hopen e (by simp)
      · rcases List.mem_map.1 h1 with ⟨y, hy, rfl⟩
        simpa using hopen y (by simp [hy])
  have h2 := heartbeatTick_one_pending
    (c1.map fun x : Entry => { x with wsAlive := true })
    (c2.map fun x : Entry => { x with wsAlive := true })
    { e with wsAlive := false } n hnd2 hopen2
    (by
      intro x hx
      rcases List.mem_map.1 hx with ⟨y, hy, rfl⟩
      rfl)
    (by
      intro x hx
      rcases List.mem_map.1 hx with ⟨y, hy, rfl⟩
      rfl)
    rfl
  refine ⟨⟨?_, ?_, ?_⟩, ⟨?_, ?_, ?_⟩, ?_⟩
  · rw [hr1]
    exact lookupEntry_of_nodup
      ⟨(c1 ++ e :: c2).map (fun x => { x with wsAlive := false }), n⟩
      (by
        show ((((c1 ++ e :: c2).map (fun x => { x with wsAlive := false }))).map
          (fun x => x.handle)).Nodup
        rw [hmapF (c1 ++ e :: c2) (fun x => { x with wsAlive := false }) (fun x => rfl)]
        exact hnd) _
      (List.mem_map_of_mem _ (show e ∈ c1 ++ e :: c2 by simp))
  · rw [hr1]
    exact List.mem_map_of_mem _ (show e ∈ c1 ++ e :: c2 by simp)
  · rw [hr1]
    exact sendEvents_probe_map _
  · rw [hpong, h2]
    apply List.find?_eq_none.2
    intro x hx
    rcases List.mem_map.1 hx with ⟨y, hy, rfl⟩
    rcases List.mem_append.1 hy with h1 | h1
    · rcases List.mem_map.1 h1 with ⟨z, hz, rfl⟩
      simpa using hd1 z hz
    · rcases List.mem_map.1 h1 with ⟨z, hz, rfl⟩
      simpa using hd2 z hz
  · rw [hpong, h2]
    simp
  · rw [hpong, h2]
    rw [sendEvents_append, sendEvents_probe_map, sendEvents_cons_terminate,
      sendEvents_append, sendEvents_send_map, sendEvents_probe_map]
    simp [List.map_append, List.map_map, Function.comp_def]
  · have hpongAll : ((c1 ++ e :: c2).map (fun x => x.handle)).foldl handlePong
        (heartbeatTick ⟨c1 ++ e :: c2, n⟩).1
        = ⟨(c1 ++ e :: c2).map (fun x : Entry => { x with wsAlive := true }), n⟩ := by
      rw [hr1, pong_foldl]
      simp only [ServerState.mk.injEq]
      refine ⟨?_, by simp⟩
      rw [List.map_map]
      apply List.map_congr_left
      intro x hx
      have hmem : x.handle ∈ (c1 ++ e :: c2).map (fun y => y.handle) :=
        List.mem_map_of_mem _ hx
      simp only [Function.comp_def]
      split
      · rfl
      · rename_i hcon
        exact absurd hmem hcon
    rw [hpongAll]
    have hall : ∀ x ∈ (c1 ++ e :: c2).map (fun x : Entry => { x with wsAlive := true }),
        x.wsAlive = true := by
      intro x hx
      rcases List.mem_map.1 hx with ⟨y, hy, rfl⟩
      rfl
    rw [heartbeatTick_all_alive
      ⟨(c1 ++ e :: c2).map (fun x : Entry => { x with wsAlive := true }), n⟩
      (by
        show ((((c1 ++ e :: c2).map (fun x : Entry => { x with wsAlive := true }))).map
          (fun x => x.handle)).Nodup
        rw [hmapF (c1 ++ e :: c2) (fun x => { x with wsAlive := true }) (fun x => rfl)]
        exact hnd) hall]
    exact lookupEntry_of_nodup
      ⟨((c1 ++ e :: c2).map (fun x : Entry => { x with wsAlive := true })).map
        (fun x : Entry => { x with wsAlive := false }), n⟩
      (by
        show (((((c1 ++ e :: c2).map (fun x : Entry => { x with wsAlive := true })).map
          (fun x : Entry => { x with wsAlive := false }))).map (fun x => x.handle)).Nodup
        rw [hmapF ((c1 ++ e :: c2).map (fun x => { x with wsAlive := true }))
            (fun x => { x with wsAlive := false }) (fun x => rfl),
          hmapF (c1 ++ e :: c2) (fun x => { x with wsAlive := true }) (fun x => rfl)]
        exact hnd) _
      (List.mem_map_of_mem _ (List.mem_map_of_mem _ (show e ∈ c1 ++ e :: c2 by simp)))

/-- C2 (witness): client 2 of three stops acknowledging; after two ticks it is
evicted and clients 1, 3 each get one `user_left`; had it acknowledged, it
would remain registered. -/
theorem liveness_two_missed_probes_witness :
    ((([entA] ++ entB :: [entC]).map (fun x => x.handle)).Nodup
      ∧ (∀ x ∈ [entA] ++ entB :: [entC], x.readyStateOpen = true)
      ∧ (∀ x ∈ [entA] ++ entB :: [entC], x.wsAlive = true))
    ∧ ((lookupEntry (heartbeatTick ⟨[entA] ++ entB :: [entC], 3⟩).1 entB.handle
          = some { entB with wsAlive := false }
        ∧ Evt.probe entB.handle ∈ (heartbeatTick ⟨[entA] ++ entB :: [entC], 3⟩).2
        ∧ sendEvents (heartbeatTick ⟨[entA] ++ entB :: [entC], 3⟩).2 = [])
      ∧ (lookupEntry (heartbeatTick ((([entA] ++ [entC]).map (fun x => x.handle)).foldl
              handlePong (heartbeatTick ⟨[entA] ++ entB :: [entC], 3⟩).1)).1 entB.handle = none
        ∧ Evt.terminate entB.handle ∈ (heartbeatTick ((([entA] ++ [entC]).map
              (fun x => x.handle)).foldl handlePong
              (heartbeatTick ⟨[entA] ++ entB :: [entC], 3⟩).1)).2
        ∧ sendEvents (heartbeatTick ((([entA] ++ [entC]).map (fun x => x.handle)).foldl
              handlePong (heartbeatTick ⟨[entA] ++ entB :: [entC], 3⟩).1)).2
            = ([entA] ++ [entC]).map (fun x => Evt.send x.handle
                ⟨.user_left "User_2 left the chat" 2, false⟩))
      ∧ lookupEntry (heartbeatTick ((([entA] ++ entB :: [entC]).map
            (fun x => x.handle)).foldl handlePong
            (heartbeatTick ⟨[entA] ++ entB :: [entC], 3⟩).1)).1 entB.handle
          = some { entB with wsAlive := false }) :=
  ⟨⟨by decide, by decide, by decide⟩,
    liveness_two_missed_probes [entA] [entC] entB 3 (by decide) (by decide) (by decide)⟩

end Serverpluschat
